import Mathlib

set_option autoImplicit false
set_option linter.unusedVariables false
set_option linter.unnecessarySimpa false

/-!
Verification development for the featuretools `PandasBackend`
(`featuretools/computational_backends/pandas_backend.py`).

The embedding models pandas dataframes as lists of rows, each row carrying an
index label and an association list of named cells.  A cell value of `none`
models a pandas NaN / missing cell.  Pure Python helpers
(`check_no_related_instances`, `set_default_column`, `_can_agg`) are embedded
directly; the orchestrator `calculate_all_features` is embedded around the
parts the verified properties speak about (the precondition assert, the
empty-slice short circuit, and the final backfill/column-selection step), with
the entity-loop of lines 108-186 abstracted as an opaque transformation of the
target entity's frame.
-/

namespace Featuretools

/-- Scalar cell values appearing in entity tables. -/
inductive Val where
  | int : Int → Val
  | str : String → Val
  | bool : Bool → Val
  deriving DecidableEq, Repr

/-- Cells of one materialized row: an association list from column name to
cell value.  `none` models a pandas NaN / missing cell. -/
abbrev Cells := List (String × Option Val)

/-- Reads a cell by column name; the first binding wins and a missing column
reads as NaN (`none`), matching a left-to-right column lookup. -/
def getCell : Cells → String → Option Val
  | [], _ => none
  | e :: rest, k => if e.1 = k then e.2 else getCell rest k

/-- Writes one cell: replaces the first binding for the column in place,
appending a new binding when the column is absent (pandas column assignment
keeps the column position and appends new columns at the end). -/
def setCell : Cells → String → Option Val → Cells
  | [], k, v => [(k, v)]
  | e :: rest, k, v => if e.1 = k then (k, v) :: rest else e :: setCell rest k v

/-- Column dtypes that the aggregation join-type check distinguishes.  The
source tests `dtype.name.find('category') > -1`; with a closed dtype universe
that substring test holds exactly for `category`. -/
inductive Dtype where
  | int64
  | float64
  | boolDt
  | object
  | category
  deriving DecidableEq, Repr

/-- Tests for a categorical dtype, modelling `dtype.name.find('category') > -1`. -/
def Dtype.isCategorical : Dtype → Bool
  | .category => true
  | _ => false

/-- Dtype lookup with the pandas fallback dtype `object` for columns the
model does not track. -/
def dtypeLookup : List (String × Dtype) → String → Dtype
  | [], _ => .object
  | e :: rest, c => if e.1 = c then e.2 else dtypeLookup rest c

/-- Shallow model of a pandas DataFrame as used by the backend: the ordered
column-name list, per-column dtypes, and rows carrying an index label plus
named cells. -/
structure DFrame where
  cols : List String
  dtypes : List (String × Dtype)
  rows : List (Val × Cells)
  deriving DecidableEq, Repr

/-- Dtype of a column, as `frame[c].dtype`. -/
def DFrame.dtypeOf (df : DFrame) (c : String) : Dtype :=
  dtypeLookup df.dtypes c

/-- Values of one column in row order, as `frame[c].values`. -/
def DFrame.colValues (df : DFrame) (c : String) : List (Option Val) :=
  df.rows.map (fun r => getCell r.2 c)

/-- Number of rows, as `frame.shape[0]`. -/
def DFrame.nrows (df : DFrame) : Nat :=
  df.rows.length

/-- Requested feature as the orchestrator sees it: an output name, a declared
default value and the identifier of the owning entity.  The source's iterable
defaults write the same per-cell value as scalar ones (`set_default_column`
replicates an iterable default per row), so a single scalar default suffices
for the cell-level properties proved here. -/
structure FeatureSpec where
  name : String
  default : Val
  entityId : String
  deriving DecidableEq, Repr

/-- Cells of one default row produced by `generate_default_df`: every feature
column carries the feature's default value and every extra column carries NaN
(lines 197-210 of the source). -/
def defaultCells (features : List FeatureSpec) (extra : List String) : Cells :=
  features.map (fun g => (g.name, some g.default)) ++
    (extra.filter (fun c => decide (c ∉ features.map FeatureSpec.name))).map
      (fun c => (c, (none : Option Val)))

/-- Embedding of `PandasBackend.generate_default_df`: one row per instance id,
columns in requested-feature order, each cell a feature default, plus NaN
columns for `extra_columns` not already among the feature names.  The
`indexName` argument records `default_df.index.name = index_name`. -/
def generateDefaultDf (features : List FeatureSpec) (indexName : String)
    (instanceIds : List Val) (extraColumns : Option (List String)) : DFrame :=
  let extra := extraColumns.getD []
  { cols := features.map FeatureSpec.name ++
      extra.filter (fun c => decide (c ∉ features.map FeatureSpec.name)),
    dtypes := [],
    rows := instanceIds.map (fun i => (i, defaultCells features extra)) }

/-- Embedding of `df.append(other)`: rows are concatenated and the column list
becomes the union, keeping the left frame's column order first. -/
def dfAppend (df1 df2 : DFrame) : DFrame :=
  { cols := df1.cols ++ df2.cols.filter (fun c => decide (c ∉ df1.cols)),
    dtypes := df1.dtypes,
    rows := df1.rows ++ df2.rows }

/-- Embedding of the column selection `df[[names]]`: the result exposes
exactly the requested columns in the requested order. -/
def selectCols (df : DFrame) (names : List String) : DFrame :=
  { cols := names, dtypes := df.dtypes, rows := df.rows }

/-- Embedding of lines 187-195 of `calculate_all_features`: compute the
requested instance ids that have no row (the source's
`i not in df[target_entity.index]` tests membership in the series' axis
labels, i.e. in the frame's index), append a default frame for them, and
select the requested feature columns in request order. -/
def finalizeResult (features : List FeatureSpec) (indexName : String)
    (instanceIds : List Val) (df : DFrame) : DFrame :=
  let missing := instanceIds.filter (fun i => decide (i ∉ df.rows.map Prod.fst))
  let df2 := if missing.isEmpty then df
    else dfAppend df (generateDefaultDf features indexName missing (some df.cols))
  selectCols df2 (features.map FeatureSpec.name)

/-- Failures of the orchestrator's precondition asserts. -/
inductive CalcErr where
  | emptyBatch
  | featuresSpanEntities
  deriving DecidableEq, Repr

/-- Embedding of `PandasBackend.calculate_all_features` around the verified
properties: the `assert len(instance_ids) > 0` precondition (line 74), the
empty-slice short circuit of lines 104-106 (`slice = none` models
`get_pandas_data_slice` returning `None`), and the finalization of lines
187-195.  The entity-frame bookkeeping and per-group dispatch of lines
108-186 only matter to those properties through the target entity's frame
they produce, abstracted here as the `process` transformation. -/
def calculateAllFeatures (process : DFrame → DFrame) (features : List FeatureSpec)
    (indexName : String) (instanceIds : List Val) (slice : Option DFrame) :
    Except CalcErr DFrame :=
  if instanceIds.isEmpty then .error .emptyBatch
  else
    match slice with
    | none => .ok (generateDefaultDf features indexName instanceIds none)
    | some targetFrame =>
        .ok (finalizeResult features indexName instanceIds (process targetFrame))

/-- Embedding of the `PandasBackend.__init__` assert (lines 38-40): all
requested features must be defined on a single owning entity, checked as
`len(set(f.entity.id for f in features)) == 1`. -/
def initBackend (features : List FeatureSpec) : Except CalcErr Unit :=
  if ((features.map FeatureSpec.entityId).dedup).length = 1 then .ok ()
  else .error .featuresSpanEntities

/-- Looking up a feature's column in cells built from a feature list finds
that feature's value, provided output names are unique. -/
theorem getCell_name_map (features : List FeatureSpec) (tail : Cells)
    (f : FeatureSpec) (hf : f ∈ features)
    (hnd : (features.map FeatureSpec.name).Nodup) :
    getCell (features.map (fun g => (g.name, some g.default)) ++ tail) f.name =
      some f.default := by
  induction features with
  | nil => exact absurd hf (List.not_mem_nil f)
  | cons g rest ih =>
    simp only [List.map_cons, List.cons_append, getCell]
    rcases List.mem_cons.mp hf with rfl | hfr
    · simp
    · have hgn : g.name ∉ rest.map FeatureSpec.name := (List.nodup_cons.mp hnd).1
      have hne : ¬ g.name = f.name := by
        intro h
        exact hgn (h ▸ List.mem_map_of_mem FeatureSpec.name hfr)
      rw [if_neg hne]
      exact ih hfr (List.nodup_cons.mp hnd).2

/-- C2: if the slice-provider returns the no-data sentinel (`None`),
`calculate_all_features` short-circuits (for every possible entity-loop
behaviour `process`) and returns a table with the requested feature columns,
one row per requested instance id, in which every cell of every requested
feature column equals that feature's declared default value. -/
theorem empty_slice_returns_default_frame (process : DFrame → DFrame)
    (features : List FeatureSpec) (indexName : String) (instanceIds : List Val)
    (hne : instanceIds ≠ [])
    (hnd : (features.map FeatureSpec.name).Nodup) :
    ∃ out,
      calculateAllFeatures process features indexName instanceIds none = .ok out ∧
      out.cols = features.map FeatureSpec.name ∧
      out.rows.map Prod.fst = instanceIds ∧
      ∀ r ∈ out.rows, ∀ f ∈ features, getCell r.2 f.name = some f.default := by
  refine ⟨generateDefaultDf features indexName instanceIds none, ?_, ?_, ?_, ?_⟩
  · have h : instanceIds.isEmpty = false := by
      cases instanceIds with
      | nil => exact absurd rfl hne
      | cons a l => rfl
    simp [calculateAllFeatures, h]
  · simp [generateDefaultDf]
  · simp [generateDefaultDf]
    exact List.map_id instanceIds
  · intro r hr f hf
    simp only [generateDefaultDf, Option.getD, List.mem_map] at hr
    obtain ⟨i, _, hri⟩ := hr
    have : r.2 = defaultCells features [] := by rw [← hri]
    rw [this]
    exact getCell_name_map features _ f hf hnd

/-- Companion witness for `empty_slice_returns_default_frame` at a concrete
two-instance batch. -/
theorem empty_slice_returns_default_frame_witness :
    ([Val.int 1, Val.int 2] ≠ ([] : List Val)) ∧
    ∃ out,
      calculateAllFeatures id [⟨"f", Val.int 7, "e"⟩] "id"
        [Val.int 1, Val.int 2] none = .ok out ∧
      out.cols = [⟨"f", Val.int 7, "e"⟩].map FeatureSpec.name ∧
      out.rows.map Prod.fst = [Val.int 1, Val.int 2] ∧
      ∀ r ∈ out.rows, ∀ f ∈ [(⟨"f", Val.int 7, "e"⟩ : FeatureSpec)],
        getCell r.2 f.name = some f.default :=
  ⟨by decide,
   empty_slice_returns_default_frame id [⟨"f", Val.int 7, "e"⟩] "id"
     [Val.int 1, Val.int 2] (by decide) (by decide)⟩

/-- Index labels of the finalized frame: the processed frame's labels followed
by the backfilled missing instance ids. -/
theorem finalizeResult_ids (features : List FeatureSpec) (indexName : String)
    (instanceIds : List Val) (df : DFrame) :
    (finalizeResult features indexName instanceIds df).rows.map Prod.fst =
      df.rows.map Prod.fst ++
        instanceIds.filter (fun i => decide (i ∉ df.rows.map Prod.fst)) := by
  cases hfl : instanceIds.filter (fun i => decide (i ∉ df.rows.map Prod.fst)) with
  | nil =>
    unfold finalizeResult
    rw [hfl]
    simp [selectCols]
  | cons a l =>
    unfold finalizeResult
    rw [hfl]
    simp [selectCols, dfAppend, generateDefaultDf]
    exact List.map_id l

/-- Backfilling the requested ids that are absent from a duplicate-free subset
yields a permutation of the requested ids. -/
theorem backfill_perm (ids dfids : List Val) (hnd : ids.Nodup)
    (hnd2 : dfids.Nodup) (hsub : ∀ i ∈ dfids, i ∈ ids) :
    List.Perm (dfids ++ ids.filter (fun i => decide (i ∉ dfids))) ids := by
  rw [List.perm_iff_count]
  intro a
  rw [List.count_append]
  by_cases hadf : a ∈ dfids
  · rw [List.count_eq_one_of_mem hnd2 hadf]
    have hfl : (ids.filter (fun i => decide (i ∉ dfids))).count a = 0 := by
      rw [List.count_eq_zero]
      intro hmem
      have hp := List.of_mem_filter hmem
      simp only [decide_eq_true_eq] at hp
      exact hp hadf
    rw [hfl, List.count_eq_one_of_mem hnd (hsub a hadf)]
  · rw [List.count_eq_zero.mpr hadf, Nat.zero_add]
    by_cases haids : a ∈ ids
    · rw [List.count_filter (by simpa using hadf)]
    · rw [List.count_eq_zero.mpr haids, List.count_eq_zero]
      intro hmem
      exact haids (List.mem_of_mem_filter hmem)

/-- C1: for every non-empty instance-id batch (with duplicate-free requested
ids, unique feature names, and a processed target frame whose index labels
are a duplicate-free subset of the requested ids), `calculate_all_features`
returns a table with exactly one row per requested instance id — instances
absent from the computed target-entity table are backfilled with rows holding
the feature defaults — and with exactly the requested feature columns in the
order the features were passed in. -/
theorem calculate_all_features_row_and_column_contract
    (process : DFrame → DFrame) (features : List FeatureSpec)
    (indexName : String) (instanceIds : List Val) (slice : DFrame)
    (hne : instanceIds ≠ [])
    (hnodup : instanceIds.Nodup)
    (hnames : (features.map FeatureSpec.name).Nodup)
    (hsub : ∀ i ∈ (process slice).rows.map Prod.fst, i ∈ instanceIds)
    (hnd2 : ((process slice).rows.map Prod.fst).Nodup) :
    ∃ out,
      calculateAllFeatures process features indexName instanceIds (some slice) =
        .ok out ∧
      out.cols = features.map FeatureSpec.name ∧
      List.Perm (out.rows.map Prod.fst) instanceIds ∧
      (∀ i ∈ instanceIds, (out.rows.map Prod.fst).count i = 1) ∧
      out.rows.length = instanceIds.length ∧
      (∀ i ∈ instanceIds, i ∉ (process slice).rows.map Prod.fst →
        ∀ r ∈ out.rows, r.1 = i →
          ∀ f ∈ features, getCell r.2 f.name = some f.default) := by
  have hie : instanceIds.isEmpty = false := by
    cases instanceIds with
    | nil => exact absurd rfl hne
    | cons a l => rfl
  refine ⟨finalizeResult features indexName instanceIds (process slice),
    by simp [calculateAllFeatures, hie], by simp [finalizeResult, selectCols],
    ?_, ?_, ?_, ?_⟩
  · rw [finalizeResult_ids]
    exact backfill_perm instanceIds _ hnodup hnd2 hsub
  · intro i hi
    have hperm : List.Perm
        ((finalizeResult features indexName instanceIds (process slice)).rows.map
          Prod.fst) instanceIds := by
      rw [finalizeResult_ids]
      exact backfill_perm instanceIds _ hnodup hnd2 hsub
    rw [hperm.count_eq]
    exact List.count_eq_one_of_mem hnodup hi
  · have hperm : List.Perm
        ((finalizeResult features indexName instanceIds (process slice)).rows.map
          Prod.fst) instanceIds := by
      rw [finalizeResult_ids]
      exact backfill_perm instanceIds _ hnodup hnd2 hsub
    have := hperm.length_eq
    simpa using this
  · intro i hi hmiss r hr hri f hf
    cases hfl : instanceIds.filter
        (fun j => decide (j ∉ (process slice).rows.map Prod.fst)) with
    | nil =>
      exfalso
      have himem : i ∈ instanceIds.filter
          (fun j => decide (j ∉ (process slice).rows.map Prod.fst)) :=
        List.mem_filter.mpr ⟨hi, by simpa using hmiss⟩
      rw [hfl] at himem
      exact absurd himem (List.not_mem_nil i)
    | cons a l =>
      unfold finalizeResult at hr
      rw [hfl] at hr
      simp only [selectCols, dfAppend, generateDefaultDf, List.isEmpty_cons,
        Bool.false_eq_true, if_false, List.mem_append] at hr
      rcases hr with hr | hr
      · exfalso
        have : r.1 ∈ (process slice).rows.map Prod.fst :=
          List.mem_map_of_mem Prod.fst hr
        rw [hri] at this
        exact hmiss this
      · simp only [List.mem_map] at hr
        obtain ⟨j, hj, hrj⟩ := hr
        have hcells : r.2 = defaultCells features
            ((some (process slice).cols).getD []) := by rw [← hrj]
        rw [hcells]
        exact getCell_name_map features _ f hf hnames

/-- Companion witness for `calculate_all_features_row_and_column_contract` at
a concrete batch where one requested id is missing from the processed frame. -/
theorem calculate_all_features_row_and_column_contract_witness :
    ([Val.int 1, Val.int 2] ≠ ([] : List Val)) ∧
    ∃ out,
      calculateAllFeatures id [⟨"f", Val.int 7, "e"⟩] "id" [Val.int 1, Val.int 2]
        (some ⟨["id", "f"], [], [(Val.int 1, [("id", some (Val.int 1)), ("f", some (Val.int 3))])]⟩) =
        .ok out ∧
      out.cols = [⟨"f", Val.int 7, "e"⟩].map FeatureSpec.name ∧
      List.Perm (out.rows.map Prod.fst) [Val.int 1, Val.int 2] ∧
      (∀ i ∈ [Val.int 1, Val.int 2], (out.rows.map Prod.fst).count i = 1) ∧
      out.rows.length = [Val.int 1, Val.int 2].length ∧
      (∀ i ∈ [Val.int 1, Val.int 2],
        i ∉ (id (⟨["id", "f"], [], [(Val.int 1, [("id", some (Val.int 1)), ("f", some (Val.int 3))])]⟩ : DFrame)).rows.map Prod.fst →
        ∀ r ∈ out.rows, r.1 = i →
          ∀ f ∈ [(⟨"f", Val.int 7, "e"⟩ : FeatureSpec)],
            getCell r.2 f.name = some f.default) :=
  ⟨by decide,
   calculate_all_features_row_and_column_contract id [⟨"f", Val.int 7, "e"⟩] "id"
     [Val.int 1, Val.int 2]
     ⟨["id", "f"], [], [(Val.int 1, [("id", some (Val.int 1)), ("f", some (Val.int 3))])]⟩
     (by decide) (by decide) (by decide) (by decide) (by decide)⟩

/-- C3: the computation fails with the empty-batch precondition violation
(before any feature computation: for every `process`, every slice) whenever
the instance batch is empty, and construction fails whenever the requested
features span more than one owning entity; in both cases only an error and no
table is produced. -/
theorem precondition_failures_produce_no_result :
    (∀ (process : DFrame → DFrame) (features : List FeatureSpec)
       (indexName : String) (slice : Option DFrame),
       calculateAllFeatures process features indexName [] slice =
         .error CalcErr.emptyBatch) ∧
    (∀ (features : List FeatureSpec) (f g : FeatureSpec), f ∈ features →
       g ∈ features → f.entityId ≠ g.entityId →
       initBackend features = .error CalcErr.featuresSpanEntities) := by
  constructor
  · intro process features indexName slice
    simp [calculateAllFeatures]
  · intro features f g hf hg hne
    unfold initBackend
    split
    · next hlen =>
      exfalso
      obtain ⟨a, ha⟩ := List.length_eq_one.mp hlen
      have hfa : f.entityId = a := by
        have : f.entityId ∈ (features.map FeatureSpec.entityId).dedup :=
          List.mem_dedup.mpr (List.mem_map_of_mem FeatureSpec.entityId hf)
        rw [ha] at this
        exact List.mem_singleton.mp this
      have hga : g.entityId = a := by
        have : g.entityId ∈ (features.map FeatureSpec.entityId).dedup :=
          List.mem_dedup.mpr (List.mem_map_of_mem FeatureSpec.entityId hg)
        rw [ha] at this
        exact List.mem_singleton.mp this
      exact hne (hfa.trans hga.symm)
    · rfl

/-- Companion witness for `precondition_failures_produce_no_result` at
concrete inputs: an empty batch and a two-entity feature list. -/
theorem precondition_failures_produce_no_result_witness :
    calculateAllFeatures id [] "idx" [] none = .error CalcErr.emptyBatch ∧
    initBackend [⟨"f1", Val.int 0, "e1"⟩, ⟨"f2", Val.int 0, "e2"⟩] =
      .error CalcErr.featuresSpanEntities :=
  ⟨precondition_failures_produce_no_result.1 id [] "idx" none,
   precondition_failures_produce_no_result.2
     [⟨"f1", Val.int 0, "e1"⟩, ⟨"f2", Val.int 0, "e2"⟩]
     ⟨"f1", Val.int 0, "e1"⟩ ⟨"f2", Val.int 0, "e2"⟩
     (by decide) (by decide) (by decide)⟩

/-- Equality between two possibly missing cell values as Python `==` sees it:
NaN (modelled as `none`) compares unequal to everything, itself included. -/
def optValEq (a b : Option Val) : Bool :=
  match a, b with
  | some x, some y => decide (x = y)
  | _, _ => false

/-- Embedding of `check_no_related_instances` (lines 497-506): true iff no
value of the first array equals a value of the second.  The source converts
both arrays to sets first, which does not change whether a common element
exists. -/
def checkNoRelatedInstances (array1 array2 : List (Option Val)) : Bool :=
  !(array1.any fun s => array2.any fun b => optValEq s b)

/-- Embedding of `set_default_column` (lines 509-514): writes the feature's
default value into every row of the column.  The source's iterable branch
(`[default] * len`) and the scalar broadcast assign the same per-cell
value. -/
def setDefaultColumn (frame : DFrame) (name : String) (default : Val) : DFrame :=
  { frame with
    cols := if name ∈ frame.cols then frame.cols else frame.cols ++ [name],
    rows := frame.rows.map fun r => (r.1, setCell r.2 name (some default)) }

/-- Aggregation feature as `_calculate_agg_features` and `_can_agg` see it:
an output name, a declared default, the base-feature names on the child
entity, the optional where feature's name, and the time-aware and expanding
flags. -/
structure AggFeature where
  name : String
  default : Val
  baseFeatures : List String
  whereName : Option String
  usesCalcTime : Bool
  expanding : Bool
  deriving DecidableEq, Repr

/-- Embedding of `_can_agg` (lines 467-477): a feature is simple-aggregable
when, after excluding its where feature's name from the base-feature names,
exactly one base feature remains, and the feature is neither time-aware nor
expanding. -/
def canAgg (feature : AggFeature) : Bool :=
  let baseFeatures :=
    match feature.whereName with
    | some w => feature.baseFeatures.filter fun bf => decide (bf ≠ w)
    | none => feature.baseFeatures
  if feature.usesCalcTime then false
  else decide (baseFeatures.length = 1) && !feature.expanding

/-- Bucket split of lines 384-404: a feature goes to the grouped-aggregation
bucket `to_agg` iff `_can_agg` holds, otherwise to the per-group apply bucket
`to_apply`. -/
def aggPartition (features : List AggFeature) :
    List AggFeature × List AggFeature :=
  features.partition canAgg

/-- A `use_previous` window: an absolute Timedelta or a count of most-recent
rows (`is_absolute` distinguishes the two in the source). -/
inductive UsePrev where
  | absolute : Int → UsePrev
  | count : Nat → UsePrev
  deriving DecidableEq, Repr

/-- Configuration under which one aggregation feature group is computed.  In
the source these are read from the group's first feature (`test_feature`,
lines 301-304: `use_previous`, `where`), from the parent and child entities
(index variable, time index, entity ids, the link variable derived from the
backward relationship path, lines 310-328) and from the backend
(`time_last`); all features of a group share this configuration.  `coerce`
models `series.astype(object)` on a column's dtype and values, returning
`none` exactly when that conversion raises `ValueError`. -/
structure AggEnv where
  entityId : String
  childEntityId : String
  indexVar : String
  groupbyVar : String
  timeIndex : Option String
  timeLast : Int
  usePrevious : Option UsePrev
  whereName : Option String
  coerce : Dtype → List (Option Val) → Option (List (Option Val))

/-- Embedding of the where-clause filter (lines 322-323): keep the child rows
whose where-column cell is boolean true. -/
def applyWhere (whereName : Option String) (df : DFrame) : DFrame :=
  match whereName with
  | none => df
  | some w =>
      { df with rows := df.rows.filter fun r =>
          decide (getCell r.2 w = some (Val.bool true)) }

/-- Embedding of `df.iloc[-n:]` (the `last_n` helper, lines 343-344).  Python
slicing makes `-0` the start of the frame, so a count of `0` keeps every
row; for `n ≥ 1` exactly the last `n` rows remain. -/
def lastNSlice {α : Type} (n : Nat) (l : List α) : List α :=
  if n = 0 then l else l.drop (l.length - n)

/-- Child rows carrying a given link-column value. -/
def groupRows (groupbyVar : String) (v : Val) (rows : List (Val × Cells)) :
    List (Val × Cells) :=
  rows.filter fun r => decide (getCell r.2 groupbyVar = some v)

/-- Distinct link-column values present in the child rows.  Pandas `groupby`
drops rows whose key is NaN and orders groups by sorted key; the properties
below only concern each group's contents, so the model keeps the group order
produced by `dedup`. -/
def groupKeys (groupbyVar : String) (rows : List (Val × Cells)) : List Val :=
  (rows.filterMap fun r => getCell r.2 groupbyVar).dedup

/-- Embedding of `base_frame.groupby(groupby_var).apply(last_n)` (line 346):
within each link-column group keep the `iloc[-n:]` slice, concatenating the
groups. -/
def groupbyLastN (n : Nat) (groupbyVar : String) (rows : List (Val × Cells)) :
    List (Val × Cells) :=
  (groupKeys groupbyVar rows).flatMap fun k =>
    lastNSlice n (groupRows groupbyVar k rows)

/-- Embedding of the pandas comparison `base_frame[ti] >= time_first` on one
cell: NaN and non-numeric cells compare false. -/
def cellGE (c : Option Val) (t : Int) : Bool :=
  match c with
  | some (Val.int x) => decide (t ≤ x)
  | _ => false

/-- Embedding of the `use_previous` windowing (lines 332-346), applied to the
already where-filtered child frame: only when the window is set and that
frame is non-empty; an absolute window keeps the rows whose time-index cell
is at least `time_last - duration` (skipped entirely when the child entity
has no time index); a count window keeps each group's `iloc[-n:]` slice. -/
def applyUsePrevious (env : AggEnv) (df : DFrame) : DFrame :=
  match env.usePrevious with
  | none => df
  | some up =>
      if df.rows.isEmpty then df
      else
        match up with
        | .absolute d =>
            match env.timeIndex with
            | none => df
            | some ti =>
                { df with rows := df.rows.filter fun r =>
                    cellGE (getCell r.2 ti) (env.timeLast - d) }
        | .count n => { df with rows := groupbyLastN n env.groupbyVar df.rows }

/-- Failures inside `_calculate_agg_features`: the join-type-mismatch
`ValueError` of lines 361-366 carrying both entity ids, both column names and
both dtypes, and the `NameError` Python would raise if `no_instances` were
ever read before any assignment. -/
inductive AggErr where
  | joinTypeMismatch : String → String → Dtype → String → String → Dtype → AggErr
  | readUninitialized : AggErr
  deriving DecidableEq, Repr

/-- Embedding of lines 348-370: the state of the `no_instances` flag after
the conditional block.  `none` models the Python name remaining unbound (the
block was not entered because the child frame is empty); otherwise every
branch assigns it: `True` when the link column is missing from the child
frame, else the result of `check_no_related_instances` — computed on
object-coerced values when the join dtypes disagree or the parent index dtype
is categorical, with a join-type-mismatch error when that coercion raises
`ValueError`. -/
def noInstancesPhase (env : AggEnv) (frame baseFrame : DFrame) :
    Except AggErr (Option Bool) :=
  if baseFrame.rows.isEmpty then .ok none
  else if env.groupbyVar ∈ baseFrame.cols then
    if frame.dtypeOf env.indexVar ≠ baseFrame.dtypeOf env.groupbyVar ∨
        (frame.dtypeOf env.indexVar).isCategorical = true then
      match env.coerce (frame.dtypeOf env.indexVar) (frame.colValues env.indexVar),
          env.coerce (baseFrame.dtypeOf env.groupbyVar)
            (baseFrame.colValues env.groupbyVar) with
      | some frameAsObj, some baseFrameAsObj =>
          .ok (some (checkNoRelatedInstances frameAsObj baseFrameAsObj))
      | _, _ =>
          .error (.joinTypeMismatch env.entityId env.indexVar
            (frame.dtypeOf env.indexVar) env.childEntityId env.groupbyVar
            (baseFrame.dtypeOf env.groupbyVar))
    else
      .ok (some (checkNoRelatedInstances (frame.colValues env.indexVar)
        (baseFrame.colValues env.groupbyVar)))
  else .ok (some true)

/-- Embedding of the read `base_frame.empty or no_instances` (line 372).
Python's `or` short-circuits, so the flag is only read — and a `NameError`
only possible — when the child frame is non-empty. -/
def emptyOrNoInstances (baseFrame : DFrame) (flag : Option Bool) :
    Except AggErr Bool :=
  if baseFrame.rows.isEmpty then .ok true
  else
    match flag with
    | some b => .ok b
    | none => .error .readUninitialized

/-- Embedding of `_calculate_agg_features` (lines 300-464) up to and
including the empty-or-unrelated early return of lines 372-376.  Features
whose output column already exists are skipped first (lines 316-319); the
`where` filter, the `use_previous` window and the relatedness check follow in
source order.  The grouped aggregation, apply, merge, default fill and dtype
normalization of lines 378-464 — whose first step, the `_can_agg` bucket
split, is modelled by `aggPartition` — are abstracted as the `aggPhase`
argument: the verified properties concern only what happens before that
phase and that the early return never invokes it. -/
def calcAggFeatures (aggPhase : List AggFeature → DFrame → DFrame → DFrame)
    (env : AggEnv) (features : List AggFeature) (frame baseFrame : DFrame) :
    Except AggErr DFrame :=
  if (features.filter fun f => decide (f.name ∉ frame.cols)).isEmpty then
    .ok frame
  else
    match noInstancesPhase env frame
        (applyUsePrevious env (applyWhere env.whereName baseFrame)) with
    | .error e => .error e
    | .ok flag =>
        match emptyOrNoInstances
            (applyUsePrevious env (applyWhere env.whereName baseFrame)) flag with
        | .error e => .error e
        | .ok true =>
            .ok ((features.filter fun f => decide (f.name ∉ frame.cols)).foldl
              (fun fr f => setDefaultColumn fr f.name f.default) frame)
        | .ok false =>
            .ok (aggPhase (features.filter fun f => decide (f.name ∉ frame.cols))
              frame (applyUsePrevious env (applyWhere env.whereName baseFrame)))

/-- Every error produced by the flag phase is a join-type mismatch, never the
modelled uninitialized-read `NameError`. -/
theorem noInstancesPhase_not_uninit (env : AggEnv) (frame baseFrame : DFrame) :
    noInstancesPhase env frame baseFrame ≠ .error AggErr.readUninitialized := by
  unfold noInstancesPhase
  split
  · intro h; cases h
  · split
    · split
      · split
        · intro h; cases h
        · intro h; cases h
      · intro h; cases h
    · intro h; cases h

/-- On a non-empty child frame the flag phase always assigns the flag. -/
theorem noInstancesPhase_assigned (env : AggEnv) (frame baseFrame : DFrame)
    (hne : baseFrame.rows.isEmpty = false) (flag : Option Bool)
    (h : noInstancesPhase env frame baseFrame = .ok flag) : flag ≠ none := by
  unfold noInstancesPhase at h
  rw [hne] at h
  simp only [Bool.false_eq_true, if_false] at h
  split at h
  · split at h
    · split at h
      · cases h; intro hc; cases hc
      · cases h
    · cases h; intro hc; cases hc
  · cases h; intro hc; cases hc

/-- Shared safety lemma: the aggregation calculator can never return the
uninitialized-read error, because the short-circuiting `or` reads the flag
only on non-empty child frames, where it is always assigned. -/
theorem calcAggFeatures_not_uninit
    (aggPhase : List AggFeature → DFrame → DFrame → DFrame) (env : AggEnv)
    (features : List AggFeature) (frame baseFrame : DFrame) :
    calcAggFeatures aggPhase env features frame baseFrame ≠
      .error AggErr.readUninitialized := by
  unfold calcAggFeatures
  cases hfe : (features.filter fun f => decide (f.name ∉ frame.cols)).isEmpty with
  | true => simp
  | false =>
    simp only [Bool.false_eq_true, if_false]
    cases hphase : noInstancesPhase env frame
        (applyUsePrevious env (applyWhere env.whereName baseFrame)) with
    | error e =>
      intro h
      cases h
      exact noInstancesPhase_not_uninit env frame _ hphase
    | ok flag =>
      cases hbf : (applyUsePrevious env (applyWhere env.whereName baseFrame)).rows.isEmpty with
      | true =>
        have hres : emptyOrNoInstances
            (applyUsePrevious env (applyWhere env.whereName baseFrame)) flag =
              .ok true := by
          unfold emptyOrNoInstances
          rw [hbf]
          simp
        simp [hres]
      | false =>
        have hfl := noInstancesPhase_assigned env frame _ hbf flag hphase
        cases flag with
        | none => exact absurd rfl hfl
        | some b =>
          have hres : emptyOrNoInstances
              (applyUsePrevious env (applyWhere env.whereName baseFrame))
              (some b) = .ok b := by
            unfold emptyOrNoInstances
            rw [hbf]
            simp
          cases b with
          | true => simp [hres]
          | false => simp [hres]

/-- C10 is false: there is no execution of the aggregation calculator on
which the `no_instances` flag is read without having been assigned — the
short-circuiting `or` at line 372 skips the read exactly on the (empty child
frame) paths that leave the flag unassigned, so the modelled `NameError` is
unreachable. -/
theorem no_instances_flag_never_unassigned_read :
    ¬ ∃ (aggPhase : List AggFeature → DFrame → DFrame → DFrame) (env : AggEnv)
        (features : List AggFeature) (frame baseFrame : DFrame),
      calcAggFeatures aggPhase env features frame baseFrame =
        .error AggErr.readUninitialized := by
  rintro ⟨aggPhase, env, features, frame, baseFrame, h⟩
  exact calcAggFeatures_not_uninit aggPhase env features frame baseFrame h

/-- Tests whether a calculator result is the modelled uninitialized-flag
`NameError`. -/
def isReadUninitialized : Except AggErr DFrame → Bool
  | .error .readUninitialized => true
  | _ => false

/-- C10 amended: on every execution of the aggregation calculator the
`no_instances` flag read is safe — when the child frame is empty the
short-circuiting `or` never reads the flag, and on every non-empty path the
flag has been assigned before the read, so an uninitialized read is
impossible. -/
theorem no_instances_read_always_initialized
    (aggPhase : List AggFeature → DFrame → DFrame → DFrame) (env : AggEnv)
    (features : List AggFeature) (frame baseFrame : DFrame) :
    isReadUninitialized (calcAggFeatures aggPhase env features frame baseFrame) =
      false := by
  cases hres : calcAggFeatures aggPhase env features frame baseFrame with
  | ok df => rfl
  | error e =>
    cases e with
    | joinTypeMismatch a b c d f g => rfl
    | readUninitialized =>
      exact absurd hres (calcAggFeatures_not_uninit aggPhase env features frame baseFrame)

/-- C9 is false as stated: a feature whose where feature appears among its
base features is placed in the simple-aggregable bucket although it has two
base features, because `_can_agg` counts base features only after excluding
the where feature's name. -/
theorem can_agg_where_in_base_counterexample :
    canAgg ⟨"s", Val.int 0, ["x", "w"], some "w", false, false⟩ = true ∧
    (⟨"s", Val.int 0, ["x", "w"], some "w", false, false⟩ :
      AggFeature).baseFeatures.length ≠ 1 ∧
    (aggPartition [⟨"s", Val.int 0, ["x", "w"], some "w", false, false⟩]).1 =
      [⟨"s", Val.int 0, ["x", "w"], some "w", false, false⟩] :=
  ⟨by decide, by decide, by decide⟩

/-- C9 amended: an aggregation feature is placed in the simple-aggregable
bucket iff, after excluding its where feature's name from its base-feature
names, exactly one base feature remains and the feature is neither time-aware
nor expanding; every other feature of the group goes to the per-group apply
bucket. -/
theorem agg_bucket_membership (features : List AggFeature) (f : AggFeature) :
    (canAgg f = true ↔
      ((match f.whereName with
        | some w => f.baseFeatures.filter fun bf => decide (bf ≠ w)
        | none => f.baseFeatures).length = 1 ∧
        f.usesCalcTime = false ∧ f.expanding = false)) ∧
    (f ∈ (aggPartition features).1 ↔ f ∈ features ∧ canAgg f = true) ∧
    (f ∈ (aggPartition features).2 ↔ f ∈ features ∧ canAgg f = false) := by
  refine ⟨?_, ?_, ?_⟩
  · unfold canAgg
    cases hct : f.usesCalcTime with
    | true =>
      simp only [hct, if_true]
      constructor
      · intro h; cases h
      · rintro ⟨-, h, -⟩; cases h
    | false =>
      simp only [hct, if_false]
      cases hex : f.expanding with
      | true => simp [hex]
      | false => simp [hex]
  · rw [aggPartition, List.partition_eq_filter_filter]
    simp [List.mem_filter]
  · rw [aggPartition, List.partition_eq_filter_filter]
    simp only [List.mem_filter]
    constructor
    · rintro ⟨hmem, hp⟩
      refine ⟨hmem, ?_⟩
      simp only [Function.comp, Bool.not_eq_true'] at hp
      exact hp
    · rintro ⟨hmem, hp⟩
      refine ⟨hmem, ?_⟩
      simp [Function.comp, hp]

/-- Companion witness for `agg_bucket_membership`: a plain one-base-feature
mean-like feature lands in the aggregation bucket, a two-base-feature one in
the apply bucket. -/
theorem agg_bucket_membership_witness :
    (⟨"m", Val.int 0, ["x"], none, false, false⟩ : AggFeature) ∈
      (aggPartition [⟨"m", Val.int 0, ["x"], none, false, false⟩,
        ⟨"t", Val.int 0, ["x", "y"], none, false, false⟩]).1 ∧
    (⟨"t", Val.int 0, ["x", "y"], none, false, false⟩ : AggFeature) ∈
      (aggPartition [⟨"m", Val.int 0, ["x"], none, false, false⟩,
        ⟨"t", Val.int 0, ["x", "y"], none, false, false⟩]).2 :=
  ⟨(agg_bucket_membership _ _).2.1.mpr ⟨by decide, by decide⟩,
   (agg_bucket_membership _ _).2.2.mpr ⟨by decide, by decide⟩⟩

/-- C6: with a non-empty child frame whose link column is present — writing
`d1` for the parent index dtype and `d2` for the child link dtype — (a) when
the dtypes disagree or `d1` is categorical, both columns are coerced to
object values and the join-type-mismatch error (naming both entities, both
columns and both dtypes) is raised if and only if the coercion of either side
fails; (b) when both coercions succeed the membership test runs on the
coerced values; (c) with agreeing non-categorical dtypes no error is
possible; (d) an error of the flag phase propagates out of the aggregation
calculator unchanged. -/
theorem join_dtype_coercion_error_iff (env : AggEnv) (frame baseFrame : DFrame)
    (hne : baseFrame.rows.isEmpty = false)
    (hcol : env.groupbyVar ∈ baseFrame.cols) :
    ((frame.dtypeOf env.indexVar ≠ baseFrame.dtypeOf env.groupbyVar ∨
        (frame.dtypeOf env.indexVar).isCategorical = true) →
      ((env.coerce (frame.dtypeOf env.indexVar) (frame.colValues env.indexVar) =
          none ∨
        env.coerce (baseFrame.dtypeOf env.groupbyVar)
          (baseFrame.colValues env.groupbyVar) = none) ↔
        noInstancesPhase env frame baseFrame =
          .error (.joinTypeMismatch env.entityId env.indexVar
            (frame.dtypeOf env.indexVar) env.childEntityId env.groupbyVar
            (baseFrame.dtypeOf env.groupbyVar)))) ∧
    ((frame.dtypeOf env.indexVar ≠ baseFrame.dtypeOf env.groupbyVar ∨
        (frame.dtypeOf env.indexVar).isCategorical = true) →
      ∀ frameAsObj baseFrameAsObj,
        env.coerce (frame.dtypeOf env.indexVar) (frame.colValues env.indexVar) =
          some frameAsObj →
        env.coerce (baseFrame.dtypeOf env.groupbyVar)
          (baseFrame.colValues env.groupbyVar) = some baseFrameAsObj →
        noInstancesPhase env frame baseFrame =
          .ok (some (checkNoRelatedInstances frameAsObj baseFrameAsObj))) ∧
    (¬ (frame.dtypeOf env.indexVar ≠ baseFrame.dtypeOf env.groupbyVar ∨
        (frame.dtypeOf env.indexVar).isCategorical = true) →
      noInstancesPhase env frame baseFrame =
        .ok (some (checkNoRelatedInstances (frame.colValues env.indexVar)
          (baseFrame.colValues env.groupbyVar)))) ∧
    (∀ (aggPhase : List AggFeature → DFrame → DFrame → DFrame)
       (features : List AggFeature) (e : AggErr),
      (features.filter fun f => decide (f.name ∉ frame.cols)).isEmpty = false →
      noInstancesPhase env frame
        (applyUsePrevious env (applyWhere env.whereName baseFrame)) = .error e →
      calcAggFeatures aggPhase env features frame baseFrame = .error e) := by
  have hbase : noInstancesPhase env frame baseFrame =
      (if frame.dtypeOf env.indexVar ≠ baseFrame.dtypeOf env.groupbyVar ∨
          (frame.dtypeOf env.indexVar).isCategorical = true then
        match env.coerce (frame.dtypeOf env.indexVar) (frame.colValues env.indexVar),
            env.coerce (baseFrame.dtypeOf env.groupbyVar)
              (baseFrame.colValues env.groupbyVar) with
        | some frameAsObj, some baseFrameAsObj =>
            .ok (some (checkNoRelatedInstances frameAsObj baseFrameAsObj))
        | _, _ =>
            .error (.joinTypeMismatch env.entityId env.indexVar
              (frame.dtypeOf env.indexVar) env.childEntityId env.groupbyVar
              (baseFrame.dtypeOf env.groupbyVar))
      else
        .ok (some (checkNoRelatedInstances (frame.colValues env.indexVar)
          (baseFrame.colValues env.groupbyVar)))) := by
    unfold noInstancesPhase
    rw [hne]
    simp only [Bool.false_eq_true, if_false, if_pos hcol]
  refine ⟨?_, ?_, ?_, ?_⟩
  · intro hmis
    rw [hbase, if_pos hmis]
    cases hc1 : env.coerce (frame.dtypeOf env.indexVar)
        (frame.colValues env.indexVar) with
    | none =>
      cases hc2 : env.coerce (baseFrame.dtypeOf env.groupbyVar)
          (baseFrame.colValues env.groupbyVar) with
      | none => simp
      | some b => simp
    | some a =>
      cases hc2 : env.coerce (baseFrame.dtypeOf env.groupbyVar)
          (baseFrame.colValues env.groupbyVar) with
      | none => simp
      | some b => simp
  · intro hmis frameAsObj baseFrameAsObj hfa hfb
    rw [hbase, if_pos hmis, hfa, hfb]
  · intro hnm
    rw [hbase, if_neg hnm]
  · intro aggPhase features e hfe hphase
    unfold calcAggFeatures
    rw [hfe]
    simp only [Bool.false_eq_true, if_false, hphase]

/-- Companion witness for `join_dtype_coercion_error_iff`: an integer parent
index against an object child link with an always-failing coercion raises the
join-type-mismatch error carrying both entities, columns and dtypes. -/
theorem join_dtype_coercion_error_iff_witness :
    ((⟨["g"], [("g", Dtype.object)], [(Val.int 5, [("g", some (Val.int 1))])]⟩ :
      DFrame)).rows.isEmpty = false ∧
    "g" ∈ ((⟨["g"], [("g", Dtype.object)],
      [(Val.int 5, [("g", some (Val.int 1))])]⟩ : DFrame)).cols ∧
    noInstancesPhase
      ⟨"p", "c", "id", "g", none, 0, none, none, fun _ _ => none⟩
      ⟨["id"], [("id", Dtype.int64)], [(Val.int 1, [("id", some (Val.int 1))])]⟩
      ⟨["g"], [("g", Dtype.object)], [(Val.int 5, [("g", some (Val.int 1))])]⟩ =
      .error (.joinTypeMismatch "p" "id" Dtype.int64 "c" "g" Dtype.object) :=
  ⟨rfl, by decide,
   ((join_dtype_coercion_error_iff
      ⟨"p", "c", "id", "g", none, 0, none, none, fun _ _ => none⟩
      ⟨["id"], [("id", Dtype.int64)], [(Val.int 1, [("id", some (Val.int 1))])]⟩
      ⟨["g"], [("g", Dtype.object)], [(Val.int 5, [("g", some (Val.int 1))])]⟩
      rfl (by decide)).1 (by decide)).mp (Or.inl rfl)⟩

/-- Writing a default column sets every cell of that column. -/
theorem getCell_setCell_self (cs : Cells) (k : String) (v : Option Val) :
    getCell (setCell cs k v) k = v := by
  induction cs with
  | nil => simp [setCell, getCell]
  | cons e rest ih =>
    by_cases h : e.1 = k
    · simp [setCell, h, getCell]
    · simp [setCell, h, getCell, ih]

/-- Writing one column leaves the other columns' cells unchanged. -/
theorem getCell_setCell_ne (cs : Cells) (k c : String) (v : Option Val)
    (hne : c ≠ k) : getCell (setCell cs k v) c = getCell cs c := by
  induction cs with
  | nil =>
    simp only [setCell, getCell]
    rw [if_neg fun hh => hne hh.symm]
  | cons e rest ih =>
    by_cases h : e.1 = k
    · have hkc : ¬ k = c := fun hh => hne hh.symm
      have hec : ¬ e.1 = c := by rw [h]; exact hkc
      simp [setCell, getCell, h, hkc, hec]
    · simp [setCell, getCell, h, ih]

/-- A written default column holds the default in every row. -/
theorem setDefaultColumn_colValues_self (frame : DFrame) (nm : String) (d : Val) :
    (setDefaultColumn frame nm d).colValues nm =
      List.replicate frame.nrows (some d) := by
  simp only [setDefaultColumn, DFrame.colValues, DFrame.nrows, List.map_map]
  induction frame.rows with
  | nil => rfl
  | cons r rest ih =>
    rw [List.map_cons, List.length_cons, List.replicate_succ, ih]
    congr 1
    exact getCell_setCell_self r.2 nm (some d)

/-- Writing a default column leaves other columns' values unchanged. -/
theorem setDefaultColumn_colValues_ne (frame : DFrame) (nm c : String) (d : Val)
    (hne : c ≠ nm) :
    (setDefaultColumn frame nm d).colValues c = frame.colValues c := by
  simp only [setDefaultColumn, DFrame.colValues, List.map_map]
  induction frame.rows with
  | nil => rfl
  | cons r rest ih =>
    rw [List.map_cons, List.map_cons, ih]
    congr 1
    exact getCell_setCell_ne r.2 nm c (some d) hne

/-- Writing a default column preserves the row count. -/
theorem setDefaultColumn_rows_length (frame : DFrame) (nm : String) (d : Val) :
    (setDefaultColumn frame nm d).rows.length = frame.rows.length := by
  simp [setDefaultColumn]

/-- Folding default-column writes preserves the row count. -/
theorem foldl_setDefault_rows_length (feats : List AggFeature) (frame : DFrame) :
    (feats.foldl (fun fr f => setDefaultColumn fr f.name f.default)
      frame).rows.length = frame.rows.length := by
  induction feats generalizing frame with
  | nil => rfl
  | cons g rest ih =>
    rw [List.foldl_cons, ih, setDefaultColumn_rows_length]

/-- Folding default-column writes leaves columns with other names
unchanged. -/
theorem foldl_setDefault_colValues_ne (feats : List AggFeature) (frame : DFrame)
    (c : String) (hc : c ∉ feats.map AggFeature.name) :
    (feats.foldl (fun fr f => setDefaultColumn fr f.name f.default)
      frame).colValues c = frame.colValues c := by
  induction feats generalizing frame with
  | nil => rfl
  | cons g rest ih =>
    rw [List.foldl_cons]
    have hcg : c ≠ g.name := by
      intro hh
      exact hc (by rw [hh]; exact List.mem_cons_self _ _)
    have hcr : c ∉ rest.map AggFeature.name := fun hh =>
      hc (List.mem_cons_of_mem _ hh)
    rw [ih _ hcr, setDefaultColumn_colValues_ne _ _ _ _ hcg]

/-- After folding default-column writes over features with distinct names,
each feature's column holds its default in every row. -/
theorem foldl_setDefault_colValues (feats : List AggFeature) (frame : DFrame)
    (hnd : (feats.map AggFeature.name).Nodup) (f : AggFeature) (hf : f ∈ feats) :
    (feats.foldl (fun fr g => setDefaultColumn fr g.name g.default)
      frame).colValues f.name = List.replicate frame.nrows (some f.default) := by
  induction feats generalizing frame with
  | nil => cases hf
  | cons g rest ih =>
    rw [List.foldl_cons]
    rcases List.mem_cons.mp hf with rfl | hfr
    · have hni : f.name ∉ rest.map AggFeature.name := (List.nodup_cons.mp hnd).1
      rw [foldl_setDefault_colValues_ne rest _ f.name hni,
        setDefaultColumn_colValues_self]
    · have hres := ih (setDefaultColumn frame g.name g.default)
        (List.nodup_cons.mp hnd).2 hfr
      rw [hres]
      simp [setDefaultColumn, DFrame.nrows]

/-- C7: whenever the where-filtered, windowed child frame is empty or the
no-instances flag computes to true, the aggregation calculator — for every
possible aggregation phase, hence without computing any aggregate — returns
the parent frame with each remaining feature's declared default value written
as its column (in every row of the parent table). -/
theorem agg_default_on_empty_or_unrelated
    (aggPhase : List AggFeature → DFrame → DFrame → DFrame) (env : AggEnv)
    (features : List AggFeature) (frame baseFrame : DFrame)
    (hcond : (applyUsePrevious env (applyWhere env.whereName baseFrame)).rows =
        [] ∨
      noInstancesPhase env frame
        (applyUsePrevious env (applyWhere env.whereName baseFrame)) =
        .ok (some true))
    (hnames : ((features.filter fun f => decide (f.name ∉ frame.cols)).map
      AggFeature.name).Nodup) :
    calcAggFeatures aggPhase env features frame baseFrame =
      .ok ((features.filter fun f => decide (f.name ∉ frame.cols)).foldl
        (fun fr f => setDefaultColumn fr f.name f.default) frame) ∧
    ∀ f ∈ features.filter fun f => decide (f.name ∉ frame.cols),
      ((features.filter fun f => decide (f.name ∉ frame.cols)).foldl
        (fun fr f => setDefaultColumn fr f.name f.default) frame).colValues
          f.name = List.replicate frame.nrows (some f.default) := by
  constructor
  · unfold calcAggFeatures
    cases hfe : (features.filter fun f => decide (f.name ∉ frame.cols)).isEmpty with
    | true =>
      have hnil := List.isEmpty_iff.mp hfe
      rw [hnil]
      simp
    | false =>
      simp only [Bool.false_eq_true, if_false]
      rcases hcond with hbfempty | hphase
      · have hbe : (applyUsePrevious env
            (applyWhere env.whereName baseFrame)).rows.isEmpty = true := by
          rw [hbfempty]; rfl
        have hphase0 : noInstancesPhase env frame
            (applyUsePrevious env (applyWhere env.whereName baseFrame)) =
            .ok none := by
          unfold noInstancesPhase
          rw [hbe]
          simp
        have hres : emptyOrNoInstances
            (applyUsePrevious env (applyWhere env.whereName baseFrame)) none =
            .ok true := by
          unfold emptyOrNoInstances
          rw [hbe]
          simp
        simp only [hphase0, hres]
      · have hres : emptyOrNoInstances
            (applyUsePrevious env (applyWhere env.whereName baseFrame))
            (some true) = .ok true := by
          unfold emptyOrNoInstances
          split
          · rfl
          · rfl
        simp only [hphase, hres]
  · intro f hf
    exact foldl_setDefault_colValues _ frame hnames f hf

/-- Companion witness for `agg_default_on_empty_or_unrelated`: an empty child
frame makes the calculator write the feature default onto the one-row parent
frame. -/
theorem agg_default_on_empty_or_unrelated_witness :
    calcAggFeatures (fun _ fr _ => fr)
      ⟨"p", "c", "id", "g", none, 0, none, none, fun _ v => some v⟩
      [⟨"a", Val.int 5, ["x"], none, false, false⟩]
      ⟨["id"], [], [(Val.int 1, [("id", some (Val.int 1))])]⟩
      ⟨["g", "x"], [], []⟩ =
      .ok ⟨["id", "a"], [],
        [(Val.int 1, [("id", some (Val.int 1)), ("a", some (Val.int 5))])]⟩ := by
  have h := (agg_default_on_empty_or_unrelated (fun _ fr _ => fr)
    ⟨"p", "c", "id", "g", none, 0, none, none, fun _ v => some v⟩
    [⟨"a", Val.int 5, ["x"], none, false, false⟩]
    ⟨["id"], [], [(Val.int 1, [("id", some (Val.int 1))])]⟩
    ⟨["g", "x"], [], []⟩ (Or.inl rfl) (by decide)).1
  rw [h]
  rfl

/-- Membership in an `iloc[-n:]` slice implies membership in the list. -/
theorem mem_lastNSlice {α : Type} (n : Nat) (l : List α) (x : α)
    (hx : x ∈ lastNSlice n l) : x ∈ l := by
  unfold lastNSlice at hx
  split at hx
  · exact hx
  · exact List.mem_of_mem_drop hx

/-- Slicing the last rows of a group keeps only rows of that group. -/
theorem groupRows_lastNSlice_self (g : String) (v : Val) (n : Nat)
    (rows : List (Val × Cells)) :
    groupRows g v (lastNSlice n (groupRows g v rows)) =
      lastNSlice n (groupRows g v rows) := by
  unfold groupRows
  apply List.filter_eq_self.mpr
  intro r hr
  have hmem : r ∈ List.filter
      (fun r => decide (getCell r.2 g = some v)) rows :=
    mem_lastNSlice n _ r hr
  have hp := List.of_mem_filter hmem
  simpa using hp

/-- Rows sliced from a different group never carry this group's link value. -/
theorem groupRows_lastNSlice_ne (g : String) (v k : Val) (hne : k ≠ v) (n : Nat)
    (rows : List (Val × Cells)) :
    groupRows g v (lastNSlice n (groupRows g k rows)) = [] := by
  unfold groupRows
  apply List.filter_eq_nil_iff.mpr
  intro r hr
  have hk := List.of_mem_filter (mem_lastNSlice n _ r hr)
  simp only [decide_eq_true_eq] at hk
  simp only [decide_eq_true_eq]
  intro hv
  rw [hk] at hv
  exact hne (Option.some.inj hv)

/-- Filtering distributes over a list bind. -/
theorem filter_flatMap_distrib {α β : Type} (l : List α) (F : α → List β)
    (p : β → Bool) :
    (l.flatMap F).filter p = l.flatMap fun a => (F a).filter p := by
  induction l with
  | nil => rfl
  | cons a tl ih => simp only [List.flatMap_cons, List.filter_append, ih]

/-- A bind over duplicate-free keys in which every key other than `v` yields
the empty list collapses to the contribution of `v`. -/
theorem flatMap_eq_single {α β : Type} [DecidableEq α] (keys : List α)
    (hnd : keys.Nodup) (F : α → List β) (v : α)
    (hz : ∀ k ∈ keys, k ≠ v → F k = []) :
    keys.flatMap F = if v ∈ keys then F v else [] := by
  induction keys with
  | nil => simp
  | cons a tl ih =>
    rw [List.flatMap_cons]
    by_cases hav : a = v
    · subst hav
      have hvtl : a ∉ tl := (List.nodup_cons.mp hnd).1
      have htl : tl.flatMap F = [] := by
        apply List.flatMap_eq_nil_iff.mpr
        intro k hk
        exact hz k (List.mem_cons_of_mem _ hk) (fun hkv => hvtl (hkv ▸ hk))
      rw [htl, List.append_nil, if_pos (List.mem_cons_self _ _)]
    · rw [hz a (List.mem_cons_self _ _) hav, List.nil_append]
      rw [ih (List.nodup_cons.mp hnd).2
        (fun k hk hkv => hz k (List.mem_cons_of_mem _ hk) hkv)]
      by_cases hvtl : v ∈ tl
      · rw [if_pos hvtl, if_pos (List.mem_cons_of_mem _ hvtl)]
      · rw [if_neg hvtl, if_neg (fun hm => by
          rcases List.mem_cons.mp hm with h1 | h2
          · exact hav h1.symm
          · exact hvtl h2)]

/-- The count-window groupby keeps, within each link-column group, exactly
the `iloc[-n:]` slice of that group. -/
theorem groupRows_groupbyLastN (n : Nat) (g : String)
    (rows : List (Val × Cells)) (v : Val) :
    groupRows g v (groupbyLastN n g rows) =
      lastNSlice n (groupRows g v rows) := by
  unfold groupbyLastN
  have h1 : groupRows g v ((groupKeys g rows).flatMap fun k =>
      lastNSlice n (groupRows g k rows)) =
      (groupKeys g rows).flatMap fun k =>
        groupRows g v (lastNSlice n (groupRows g k rows)) := by
    unfold groupRows
    exact filter_flatMap_distrib _ _ _
  rw [h1]
  rw [flatMap_eq_single (groupKeys g rows) (List.nodup_dedup _)
    (fun k => groupRows g v (lastNSlice n (groupRows g k rows))) v
    (fun k hk hkv => groupRows_lastNSlice_ne g v k hkv n rows)]
  by_cases hv : v ∈ groupKeys g rows
  · rw [if_pos hv, groupRows_lastNSlice_self]
  · rw [if_neg hv]
    have hempty : groupRows g v rows = [] := by
      unfold groupRows
      apply List.filter_eq_nil_iff.mpr
      intro r hr
      simp only [decide_eq_true_eq]
      intro hcell
      exact hv (List.mem_dedup.mpr (List.mem_filterMap.mpr ⟨r, hr, hcell⟩))
    rw [hempty]
    unfold lastNSlice
    split
    · rfl
    · rw [List.drop_nil]

/-- C5 is false as stated for a count window of zero: `df.iloc[-0:]` is the
whole frame, so the single row of the group survives, whereas keeping "only
the last 0 rows" would leave the group empty. -/
theorem use_previous_count_zero_counterexample :
    groupRows "g" (Val.int 7)
      (applyUsePrevious
        ⟨"p", "c", "id", "g", none, 0, some (UsePrev.count 0), none,
          fun _ v => some v⟩
        ⟨["g"], [], [(Val.int 1, [("g", some (Val.int 7))])]⟩).rows =
      [(Val.int 1, [("g", some (Val.int 7))])] ∧
    (groupRows "g" (Val.int 7)
        ((⟨["g"], [], [(Val.int 1, [("g", some (Val.int 7))])]⟩ :
          DFrame)).rows).drop
      ((groupRows "g" (Val.int 7)
        ((⟨["g"], [], [(Val.int 1, [("g", some (Val.int 7))])]⟩ :
          DFrame)).rows).length - 0) = [] :=
  ⟨by decide, by decide⟩

/-- C5 amended: use-previous windowing applies to the already where-filtered
child rows only when the window is set and that frame is non-empty; a count
window of N ≥ 1 keeps, within each link-column group, exactly the last N rows
in existing row order (a count of 0 keeps every row, a quirk of the `-0`
slice); an absolute window of duration D keeps the rows whose time-index cell
is ≥ cutoff − D, and is skipped entirely when the child entity has no time
index. -/
theorem use_previous_window_semantics (env : AggEnv) (df : DFrame) :
    (env.usePrevious = none → applyUsePrevious env df = df) ∧
    (df.rows = [] → applyUsePrevious env df = df) ∧
    (∀ n, env.usePrevious = some (UsePrev.count n) → 1 ≤ n → ∀ v,
      groupRows env.groupbyVar v (applyUsePrevious env df).rows =
        (groupRows env.groupbyVar v df.rows).drop
          ((groupRows env.groupbyVar v df.rows).length - n)) ∧
    (∀ d ti, env.usePrevious = some (UsePrev.absolute d) →
      env.timeIndex = some ti → df.rows ≠ [] →
      (applyUsePrevious env df).rows =
        df.rows.filter fun r => cellGE (getCell r.2 ti) (env.timeLast - d)) ∧
    (∀ d, env.usePrevious = some (UsePrev.absolute d) → env.timeIndex = none →
      applyUsePrevious env df = df) := by
  refine ⟨?_, ?_, ?_, ?_, ?_⟩
  · intro h
    unfold applyUsePrevious
    rw [h]
  · intro h
    unfold applyUsePrevious
    cases env.usePrevious with
    | none => rfl
    | some up => simp [h]
  · intro n hup hn v
    unfold applyUsePrevious
    rw [hup]
    cases hrows : df.rows.isEmpty with
    | true =>
      have hnil := List.isEmpty_iff.mp hrows
      simp only [if_true]
      rw [hnil]
      have hg : groupRows env.groupbyVar v ([] : List (Val × Cells)) = [] := rfl
      rw [hg]
      simp
    | false =>
      simp only [Bool.false_eq_true, if_false]
      show groupRows env.groupbyVar v (groupbyLastN n env.groupbyVar df.rows) =
        (groupRows env.groupbyVar v df.rows).drop
          ((groupRows env.groupbyVar v df.rows).length - n)
      rw [groupRows_groupbyLastN]
      unfold lastNSlice
      rw [if_neg (by omega : ¬ n = 0)]
  · intro d ti hup hti hne
    unfold applyUsePrevious
    rw [hup, hti]
    have hrows : df.rows.isEmpty = false := by
      cases hr : df.rows with
      | nil => exact absurd hr hne
      | cons a l => rfl
    rw [hrows]
    simp
  · intro d hup hti
    unfold applyUsePrevious
    rw [hup, hti]
    cases df.rows.isEmpty with
    | true => simp
    | false => simp

/-- Companion witness for `use_previous_window_semantics`: a count window of
2 on a three-row group keeps the last two rows. -/
theorem use_previous_window_semantics_witness :
    groupRows "g" (Val.int 1)
      (applyUsePrevious
        ⟨"p", "c", "id", "g", none, 0, some (UsePrev.count 2), none,
          fun _ v => some v⟩
        ⟨["g", "x"], [],
          [(Val.int 1, [("g", some (Val.int 1)), ("x", some (Val.int 10))]),
           (Val.int 2, [("g", some (Val.int 1)), ("x", some (Val.int 20))]),
           (Val.int 3, [("g", some (Val.int 1)), ("x", some (Val.int 30))])]⟩).rows =
      (groupRows "g" (Val.int 1)
        ((⟨["g", "x"], [],
          [(Val.int 1, [("g", some (Val.int 1)), ("x", some (Val.int 10))]),
           (Val.int 2, [("g", some (Val.int 1)), ("x", some (Val.int 20))]),
           (Val.int 3, [("g", some (Val.int 1)), ("x", some (Val.int 30))])]⟩ :
            DFrame)).rows).drop
        ((groupRows "g" (Val.int 1)
          ((⟨["g", "x"], [],
            [(Val.int 1, [("g", some (Val.int 1)), ("x", some (Val.int 10))]),
             (Val.int 2, [("g", some (Val.int 1)), ("x", some (Val.int 20))]),
             (Val.int 3, [("g", some (Val.int 1)), ("x", some (Val.int 30))])]⟩ :
              DFrame)).rows).length - 2) :=
  (use_previous_window_semantics
    ⟨"p", "c", "id", "g", none, 0, some (UsePrev.count 2), none,
      fun _ v => some v⟩
    ⟨["g", "x"], [],
      [(Val.int 1, [("g", some (Val.int 1)), ("x", some (Val.int 10))]),
       (Val.int 2, [("g", some (Val.int 1)), ("x", some (Val.int 20))]),
       (Val.int 3, [("g", some (Val.int 1)), ("x", some (Val.int 30))])]⟩).2.2.1
    2 rfl (by decide) (Val.int 1)

/-- Transform feature as `_calculate_transform_features` sees it: an output
name, a declared default, the base-feature names, the time-aware flag and the
primitive function.  The function consumes the base columns' value sequences
plus the optional cutoff time, which is passed iff the feature is time-aware
(modelling the `time=time_last` keyword argument of line 249). -/
structure TransformFeature where
  name : String
  default : Val
  baseFeatures : List String
  usesCalcTime : Bool
  func : Option Int → List (List (Option Val)) → List (Option Val)

/-- Embedding of the column assignment `frame[name] = list(values)`
(line 255): row `i` receives the `i`-th output value.  Pandas raises on a
length mismatch, so this model is only relied upon under the length
agreement hypothesized in the theorems. -/
def DFrame.setColumn (df : DFrame) (c : String) (vals : List (Option Val)) :
    DFrame :=
  { df with
    cols := if c ∈ df.cols then df.cols else df.cols ++ [c],
    rows := List.zipWith (fun r v => (r.1, setCell r.2 c v)) df.rows vals }

/-- Embedding of one iteration of the `_calculate_transform_features` loop
(lines 235-255): a zero-row owning frame takes the default column and the
primitive function is never invoked; otherwise the base columns are
gathered, the function is applied — with the cutoff time iff the feature is
time-aware — and its output becomes the new column. -/
def stepTransform (timeLast : Int) (frame : DFrame) (f : TransformFeature) :
    DFrame :=
  if frame.rows.length = 0 then setDefaultColumn frame f.name f.default
  else
    frame.setColumn f.name
      (if f.usesCalcTime then
        f.func (some timeLast) (f.baseFeatures.map fun bn => frame.colValues bn)
      else f.func none (f.baseFeatures.map fun bn => frame.colValues bn))

/-- Embedding of `_calculate_transform_features` (lines 228-257): the group's
features are processed in order against the shared owning-entity frame. -/
def calcTransformFeatures (timeLast : Int) (features : List TransformFeature)
    (frame : DFrame) : DFrame :=
  features.foldl (stepTransform timeLast) frame

/-- Assigning a column of the right length makes its values the assigned
list. -/
theorem map_getCell_zipWith (c : String) (rows : List (Val × Cells))
    (vals : List (Option Val)) (hlen : vals.length = rows.length) :
    (List.zipWith (fun r v => (r.1, setCell r.2 c v)) rows vals).map
      (fun r => getCell r.2 c) = vals := by
  induction rows generalizing vals with
  | nil =>
    cases vals with
    | nil => rfl
    | cons v vs => simp at hlen
  | cons r rest ih =>
    cases vals with
    | nil => simp at hlen
    | cons v vs =>
      simp only [List.zipWith_cons_cons, List.map_cons]
      rw [getCell_setCell_self, ih vs (by simpa using hlen)]

/-- Assigning one column leaves the values of other columns unchanged. -/
theorem map_getCell_zipWith_ne (c c2 : String) (hne : c2 ≠ c)
    (rows : List (Val × Cells)) (vals : List (Option Val))
    (hlen : vals.length = rows.length) :
    (List.zipWith (fun r v => (r.1, setCell r.2 c v)) rows vals).map
      (fun r => getCell r.2 c2) = rows.map (fun r => getCell r.2 c2) := by
  induction rows generalizing vals with
  | nil =>
    cases vals with
    | nil => rfl
    | cons v vs => simp at hlen
  | cons r rest ih =>
    cases vals with
    | nil => simp at hlen
    | cons v vs =>
      simp only [List.zipWith_cons_cons, List.map_cons]
      rw [getCell_setCell_ne _ _ _ _ hne, ih vs (by simpa using hlen)]

/-- Assigning a column of the right length preserves the index labels. -/
theorem map_fst_zipWith (c : String) (rows : List (Val × Cells))
    (vals : List (Option Val)) (hlen : vals.length = rows.length) :
    (List.zipWith (fun r v => (r.1, setCell r.2 c v)) rows vals).map Prod.fst =
      rows.map Prod.fst := by
  induction rows generalizing vals with
  | nil =>
    cases vals with
    | nil => rfl
    | cons v vs => simp at hlen
  | cons r rest ih =>
    cases vals with
    | nil => simp at hlen
    | cons v vs =>
      simp only [List.zipWith_cons_cons, List.map_cons]
      rw [ih vs (by simpa using hlen)]

/-- The written default column is present among the columns. -/
theorem setDefaultColumn_name_mem (frame : DFrame) (nm : String) (d : Val) :
    nm ∈ (setDefaultColumn frame nm d).cols := by
  unfold setDefaultColumn
  by_cases h : nm ∈ frame.cols
  · simpa [h]
  · simp [h]

/-- The assigned column is present among the columns. -/
theorem setColumn_name_mem (df : DFrame) (c : String)
    (vals : List (Option Val)) : c ∈ (df.setColumn c vals).cols := by
  unfold DFrame.setColumn
  by_cases h : c ∈ df.cols
  · simpa [h]
  · simp [h]

/-- C4: for every transform feature processed by the calculator — if the
owning entity's frame has zero rows the column is written through the
default writer (no function call, every cell of the empty column trivially
the default); otherwise the new column equals the feature's function applied
to the base-feature column value sequences, with the cutoff time passed iff
the feature is time-aware, elementwise and row-aligned to the owning frame
(index labels and the other columns unchanged). -/
theorem transform_feature_column_semantics (timeLast : Int) (frame : DFrame)
    (f : TransformFeature) :
    (frame.rows.length = 0 →
      stepTransform timeLast frame f = setDefaultColumn frame f.name f.default ∧
      (stepTransform timeLast frame f).colValues f.name =
        List.replicate frame.nrows (some f.default) ∧
      f.name ∈ (stepTransform timeLast frame f).cols) ∧
    (frame.rows.length ≠ 0 →
      ∀ output,
        output = (if f.usesCalcTime then
            f.func (some timeLast)
              (f.baseFeatures.map fun bn => frame.colValues bn)
          else f.func none (f.baseFeatures.map fun bn => frame.colValues bn)) →
        output.length = frame.rows.length →
        (stepTransform timeLast frame f).colValues f.name = output ∧
        (stepTransform timeLast frame f).rows.map Prod.fst =
          frame.rows.map Prod.fst ∧
        (∀ c, c ≠ f.name →
          (stepTransform timeLast frame f).colValues c = frame.colValues c) ∧
        f.name ∈ (stepTransform timeLast frame f).cols) := by
  constructor
  · intro h0
    unfold stepTransform
    rw [if_pos h0]
    exact ⟨rfl, setDefaultColumn_colValues_self frame f.name f.default,
      setDefaultColumn_name_mem frame f.name f.default⟩
  · intro hne output hdef hlen
    unfold stepTransform
    rw [if_neg hne, ← hdef]
    refine ⟨?_, ?_, ?_, ?_⟩
    · simp only [DFrame.setColumn, DFrame.colValues]
      exact map_getCell_zipWith f.name frame.rows output hlen
    · simp only [DFrame.setColumn]
      exact map_fst_zipWith f.name frame.rows output hlen
    · intro c hc
      simp only [DFrame.setColumn, DFrame.colValues]
      exact map_getCell_zipWith_ne f.name c hc frame.rows output hlen
    · exact setColumn_name_mem frame f.name output

/-- Companion witness for `transform_feature_column_semantics`: a transform
copying the base column on a two-row frame. -/
theorem transform_feature_column_semantics_witness :
    (stepTransform 0
      ⟨["id", "x"], [],
        [(Val.int 1, [("id", some (Val.int 1)), ("x", some (Val.int 3))]),
         (Val.int 2, [("id", some (Val.int 2)), ("x", some (Val.int 4))])]⟩
      ⟨"y", Val.int 0, ["x"], false,
        fun _ cols => cols.headD []⟩).colValues "y" =
      [some (Val.int 3), some (Val.int 4)] :=
  ((transform_feature_column_semantics 0
    ⟨["id", "x"], [],
      [(Val.int 1, [("id", some (Val.int 1)), ("x", some (Val.int 3))]),
       (Val.int 2, [("id", some (Val.int 2)), ("x", some (Val.int 4))])]⟩
    ⟨"y", Val.int 0, ["x"], false,
      fun _ cols => cols.headD []⟩).2 (by decide)
    [some (Val.int 3), some (Val.int 4)] (by decide) (by decide)).1

/-- Direct feature as `_calculate_direct_features` sees it: an output name,
the single base feature's (parent-side) column name, and the declared
default value. -/
structure DirectFeature where
  name : String
  baseName : String
  default : Val
  deriving DecidableEq, Repr

/-- One hop of a relationship path: the parent's key column and the child's
foreign-key (link) column. -/
structure Hop where
  parentVariable : String
  childVariable : String
  deriving DecidableEq, Repr

/-- Failure of the `assert len(path) == 1` at lines 266-267. -/
inductive DirErr where
  | pathLenAssert
  deriving DecidableEq, Repr

/-- Python-dict assignment on an association list: overwriting an existing
key keeps the key's position, a new key is appended. -/
def assocSet (m : List (String × String)) (k v : String) :
    List (String × String) :=
  if k ∈ m.map Prod.fst then m.map fun e => if e.1 = k then (k, v) else e
  else m ++ [(k, v)]

/-- Embedding of the `col_map` build of lines 275-285: starting from the
parent key mapped to the child link column, each feature whose output column
is not already on the child maps its parent-side base column to its output
name. -/
def buildColMap (childCols : List String) (pv mv : String)
    (features : List DirectFeature) : List (String × String) :=
  features.foldl
    (fun m f => if f.name ∈ childCols then m else assocSet m f.baseName f.name)
    [(pv, mv)]

/-- Embedding of the `index_as_feature` scan of lines 276-279: the last
feature whose base column is the parent key, tracked before the skip test. -/
def directIndexFeature (features : List DirectFeature) (pv : String) :
    Option DirectFeature :=
  features.foldl (fun acc f => if f.baseName = pv then some f else acc) none

/-- Renamed parent columns materialized by the merge table of lines 288-292.
With an index-as-feature the `set_index(..., drop=False)` keeps every column;
otherwise `set_index(merge_var)` drops the column named like the link
variable.  In both branches the merge table's index values are the parent key
values (the index-as-feature column was renamed from the parent key). -/
def directKeep (childCols : List String) (pv mv : String)
    (features : List DirectFeature) : List (String × String) :=
  match directIndexFeature features pv with
  | some _ => buildColMap childCols pv mv features
  | none => (buildColMap childCols pv mv features).filter fun e =>
      decide (e.2 ≠ mv)

/-- Cells a matching parent row contributes to a merged child row: each kept
mapping binds the renamed output column to the parent row's source cell. -/
def mergeRowCells (keep : List (String × String)) (p : Val × Cells) : Cells :=
  keep.map fun e => (e.2, getCell p.2 e.1)

/-- Embedding of `_calculate_direct_features` (lines 259-298).  The
relationship path comes from `find_forward_path`; the `assert len(path) == 1`
fails for any other length.  The left merge of lines 294-296 keys each child
row's link cell against the merge table's index (the parent key values); an
entity's key is unique, so the first matching parent row is the match, and a
child row with no matching parent receives NaN for every merged column. -/
def calcDirectFeatures (path : List Hop) (features : List DirectFeature)
    (parentDf childDf : DFrame) : Except DirErr DFrame :=
  match path with
  | [hop] =>
      .ok { cols := childDf.cols ++
              ((directKeep childDf.cols hop.parentVariable hop.childVariable
                features).map Prod.snd).filter
                  (fun c => decide (c ∉ childDf.cols)),
            dtypes := childDf.dtypes,
            rows := childDf.rows.map fun r =>
              match parentDf.rows.find? (fun p =>
                  optValEq (getCell p.2 hop.parentVariable)
                    (getCell r.2 hop.childVariable)) with
              | some p => (r.1, r.2 ++ mergeRowCells
                  (directKeep childDf.cols hop.parentVariable hop.childVariable
                    features) p)
              | none => (r.1, r.2 ++ (directKeep childDf.cols
                  hop.parentVariable hop.childVariable features).map fun e =>
                    (e.2, (none : Option Val))) }
  | _ => .error .pathLenAssert

/-- Reference lookup for the single-hop join: the first parent row whose key
cell equals the given link cell supplies the requested source column; no
match yields NaN. -/
def joinLookup (parentDf : DFrame) (pv bn : String) (k : Option Val) :
    Option Val :=
  match parentDf.rows.find? (fun p => optValEq (getCell p.2 pv) k) with
  | some p => getCell p.2 bn
  | none => none

/-- C8 is false in its default clause: a child row whose parent link (value
2) resolves to no parent row (only key 1 exists) gets NaN from the left
merge, not the feature's declared default value 0. -/
theorem direct_feature_unresolved_link_nan_counterexample :
    ∃ out, calcDirectFeatures [⟨"pid", "link"⟩] [⟨"pf", "val", Val.int 0⟩]
        ⟨["pid", "val"], [],
          [(Val.int 1, [("pid", some (Val.int 1)), ("val", some (Val.int 9))])]⟩
        ⟨["link"], [], [(Val.int 100, [("link", some (Val.int 2))])]⟩ =
        .ok out ∧
      out.colValues "pf" = [none] ∧
      out.colValues "pf" ≠ [some (Val.int 0)] :=
  ⟨_, rfl, by decide, by decide⟩

/-- An update contains the written binding. -/
theorem mem_assocSet_self (m : List (String × String)) (k v : String) :
    (k, v) ∈ assocSet m k v := by
  unfold assocSet
  split
  · next hin =>
    obtain ⟨e0, he0, hk⟩ := List.mem_map.mp hin
    exact List.mem_map.mpr ⟨e0, he0, by rw [if_pos hk]⟩
  · exact List.mem_append_right _ (List.mem_singleton.mpr rfl)

/-- An update keeps every binding for a different key. -/
theorem mem_assocSet_of_ne (m : List (String × String)) (k v : String)
    (e : String × String) (he : e ∈ m) (hne : e.1 ≠ k) :
    e ∈ assocSet m k v := by
  unfold assocSet
  split
  · exact List.mem_map.mpr ⟨e, he, by rw [if_neg hne]⟩
  · exact List.mem_append_left _ he

/-- Every binding of an update is an old binding or the written one. -/
theorem mem_of_mem_assocSet (m : List (String × String)) (k v : String)
    (e : String × String) (he : e ∈ assocSet m k v) :
    e ∈ m ∨ e = (k, v) := by
  unfold assocSet at he
  split at he
  · obtain ⟨e0, he0, himg⟩ := List.mem_map.mp he
    by_cases h0 : e0.1 = k
    · right
      rw [if_pos h0] at himg
      exact himg.symm
    · left
      rw [if_neg h0] at himg
      exact himg ▸ he0
  · rcases List.mem_append.mp he with h | h
    · exact Or.inl h
    · exact Or.inr (List.mem_singleton.mp h)

/-- A binding whose key is written by none of the remaining features survives
the `col_map` fold. -/
theorem colMapFold_preserve (features : List DirectFeature)
    (m : List (String × String)) (e : String × String) (he : e ∈ m)
    (hne : ∀ f ∈ features, f.baseName ≠ e.1) :
    e ∈ features.foldl (fun m f => assocSet m f.baseName f.name) m := by
  induction features generalizing m with
  | nil => exact he
  | cons g rest ih =>
    rw [List.foldl_cons]
    refine ih _ ?_ (fun f hf => hne f (List.mem_cons_of_mem _ hf))
    exact mem_assocSet_of_ne m _ _ e he
      (fun hh => hne g (List.mem_cons_self _ _) hh.symm)

/-- With duplicate-free base-column names, every feature's binding is present
after the `col_map` fold. -/
theorem colMapFold_mem (features : List DirectFeature)
    (hbnd : (features.map DirectFeature.baseName).Nodup)
    (m : List (String × String)) (f : DirectFeature) (hf : f ∈ features) :
    (f.baseName, f.name) ∈
      features.foldl (fun m f => assocSet m f.baseName f.name) m := by
  induction features generalizing m with
  | nil => cases hf
  | cons g rest ih =>
    rw [List.foldl_cons]
    rcases List.mem_cons.mp hf with rfl | hfr
    · refine colMapFold_preserve rest _ _ (mem_assocSet_self m _ _) ?_
      intro f' hf' hh
      apply (List.nodup_cons.mp hbnd).1
      have hh' : f'.baseName = f.baseName := hh
      rw [← hh']
      exact List.mem_map_of_mem DirectFeature.baseName hf'
    · exact ih (List.nodup_cons.mp hbnd).2 _ hfr

/-- Every binding produced by the `col_map` fold is an initial binding or one
of the features' bindings. -/
theorem colMapFold_provenance (features : List DirectFeature)
    (m : List (String × String)) (e : String × String)
    (he : e ∈ features.foldl (fun m f => assocSet m f.baseName f.name) m) :
    e ∈ m ∨ ∃ f ∈ features, e = (f.baseName, f.name) := by
  induction features generalizing m with
  | nil => exact Or.inl he
  | cons g rest ih =>
    rw [List.foldl_cons] at he
    rcases ih _ he with h | ⟨f, hf, hef⟩
    · rcases mem_of_mem_assocSet m _ _ e h with h2 | h2
      · exact Or.inl h2
      · exact Or.inr ⟨g, List.mem_cons_self _ _, h2⟩
    · exact Or.inr ⟨f, List.mem_cons_of_mem _ hf, hef⟩

/-- With no feature skipped, the `col_map` build is the plain fold of
dict-assignments. -/
theorem buildColMap_noskip (childCols : List String) (pv mv : String)
    (features : List DirectFeature)
    (hfresh : ∀ f ∈ features, f.name ∉ childCols) :
    buildColMap childCols pv mv features =
      features.foldl (fun m f => assocSet m f.baseName f.name) [(pv, mv)] := by
  unfold buildColMap
  generalize [((pv, mv) : String × String)] = m
  induction features generalizing m with
  | nil => rfl
  | cons g rest ih =>
    rw [List.foldl_cons, List.foldl_cons,
      if_neg (by simpa using hfresh g (List.mem_cons_self _ _))]
    exact ih (fun f hf => hfresh f (List.mem_cons_of_mem _ hf)) _

/-- Looking an output name up in the cells a kept mapping produces resolves
to the source applied to the feature's base column, provided the mapping
binds the name and binds it only from that base column. -/
theorem getCell_mergeCells (keep : List (String × String))
    (h : String → Option Val) (bn nm : String)
    (hmem : (bn, nm) ∈ keep)
    (huniq : ∀ e ∈ keep, e.2 = nm → e.1 = bn) :
    getCell (keep.map fun e => (e.2, h e.1)) nm = h bn := by
  induction keep with
  | nil => cases hmem
  | cons e rest ih =>
    simp only [List.map_cons, getCell]
    by_cases hh : e.2 = nm
    · rw [if_pos hh, huniq e (List.mem_cons_self _ _) hh]
    · rw [if_neg hh]
      refine ih ?_ (fun e' he' hn => huniq e' (List.mem_cons_of_mem _ he') hn)
      rcases List.mem_cons.mp hmem with heq | hmem2
      · exact absurd (congrArg Prod.snd heq.symm) hh
      · exact hmem2

/-- Cell lookup skips a prefix that does not bind the key. -/
theorem getCell_append_of_not_mem (cs1 cs2 : Cells) (k : String)
    (hk : k ∉ cs1.map Prod.fst) :
    getCell (cs1 ++ cs2) k = getCell cs2 k := by
  induction cs1 with
  | nil => rfl
  | cons e rest ih =>
    simp only [List.cons_append, getCell]
    rw [if_neg (fun hh => hk (by rw [← hh]; exact List.mem_cons_self _ _))]
    exact ih (fun hh => hk (List.mem_cons_of_mem _ hh))

/-- The kept merge mappings contain each feature's binding and bind each
feature's output name only from its base column (given fresh, duplicate-free
names and base columns). -/
theorem directKeep_spec (childCols : List String) (pv mv : String)
    (features : List DirectFeature)
    (hfresh : ∀ f ∈ features, f.name ∉ childCols)
    (hbnd : (features.map DirectFeature.baseName).Nodup)
    (hnames : (features.map DirectFeature.name).Nodup)
    (hnmv : ∀ f ∈ features, f.name ≠ mv)
    (f : DirectFeature) (hf : f ∈ features) :
    (f.baseName, f.name) ∈ directKeep childCols pv mv features ∧
    ∀ e ∈ directKeep childCols pv mv features, e.2 = f.name →
      e.1 = f.baseName := by
  have hK := buildColMap_noskip childCols pv mv features hfresh
  have hmemK : (f.baseName, f.name) ∈ buildColMap childCols pv mv features := by
    rw [hK]
    exact colMapFold_mem features hbnd _ f hf
  have huniqK : ∀ e ∈ buildColMap childCols pv mv features, e.2 = f.name →
      e.1 = f.baseName := by
    intro e he hnm
    rw [hK] at he
    rcases colMapFold_provenance features _ e he with h | ⟨f', hf', hef⟩
    · exfalso
      have : e = (pv, mv) := List.mem_singleton.mp h
      exact hnmv f hf (by rw [← hnm, this])
    · have hsame : f' = f := by
        refine List.inj_on_of_nodup_map hnames hf' hf ?_
        have hn2 : e.2 = f'.name := by rw [hef]
        rw [← hnm, hn2]
      rw [hef, hsame]
  constructor
  · unfold directKeep
    cases hdix : directIndexFeature features pv with
    | none =>
      exact List.mem_filter.mpr ⟨hmemK, by simpa using hnmv f hf⟩
    | some g => exact hmemK
  · intro e he hnm
    unfold directKeep at he
    cases hdix : directIndexFeature features pv with
    | none =>
      rw [hdix] at he
      exact huniqK e (List.mem_of_mem_filter he) hnm
    | some g =>
      rw [hdix] at he
      exact huniqK e he hnm

/-- C8 amended: a Direct feature group requires exactly one forward hop from
child to parent (any other path length fails the assert); under fresh,
duplicate-free output names and base columns, each feature's value on a child
row equals the referenced parent row's base-column value joined via the
single foreign-key hop, and a child row whose parent link resolves to no
parent row receives a missing value (NaN) — not the feature's declared
default — with the child's index labels preserved. -/
theorem direct_feature_join_semantics (hop : Hop)
    (features : List DirectFeature) (parentDf childDf : DFrame)
    (hfresh : ∀ f ∈ features, f.name ∉ childDf.cols)
    (hrowkeys : ∀ r ∈ childDf.rows, ∀ f ∈ features,
      f.name ∉ r.2.map Prod.fst)
    (hbnd : (features.map DirectFeature.baseName).Nodup)
    (hnames : (features.map DirectFeature.name).Nodup)
    (hnmv : ∀ f ∈ features, f.name ≠ hop.childVariable) :
    (∀ path : List Hop, path.length ≠ 1 →
      calcDirectFeatures path features parentDf childDf =
        .error DirErr.pathLenAssert) ∧
    ∃ out, calcDirectFeatures [hop] features parentDf childDf = .ok out ∧
      out.rows.map Prod.fst = childDf.rows.map Prod.fst ∧
      ∀ f ∈ features, out.colValues f.name =
        childDf.rows.map fun r =>
          joinLookup parentDf hop.parentVariable f.baseName
            (getCell r.2 hop.childVariable) := by
  constructor
  · intro path hlen
    match path with
    | [] => rfl
    | [a] => exact absurd rfl hlen
    | a :: b :: t => rfl
  · refine ⟨_, rfl, ?_, ?_⟩
    · simp only [List.map_map]
      apply List.map_congr_left
      intro r hr
      cases hfind : parentDf.rows.find? (fun p =>
          optValEq (getCell p.2 hop.parentVariable)
            (getCell r.2 hop.childVariable)) with
      | none => simp [hfind]
      | some p => simp [hfind]
    · intro f hf
      have hkeep := directKeep_spec childDf.cols hop.parentVariable
        hop.childVariable features hfresh hbnd hnames hnmv f hf
      simp only [DFrame.colValues, List.map_map]
      apply List.map_congr_left
      intro r hr
      have hskip : f.name ∉ r.2.map Prod.fst := hrowkeys r hr f hf
      cases hfind : parentDf.rows.find? (fun p =>
          optValEq (getCell p.2 hop.parentVariable)
            (getCell r.2 hop.childVariable)) with
      | none =>
        simp only [Function.comp_apply, hfind]
        rw [getCell_append_of_not_mem _ _ _ hskip]
        rw [getCell_mergeCells _ (fun _ => (none : Option Val)) f.baseName
          f.name hkeep.1 hkeep.2]
        unfold joinLookup
        rw [hfind]
      | some p =>
        simp only [Function.comp_apply, hfind]
        rw [getCell_append_of_not_mem _ _ _ hskip]
        unfold mergeRowCells
        rw [getCell_mergeCells _ (fun c => getCell p.2 c) f.baseName f.name
          hkeep.1 hkeep.2]
        unfold joinLookup
        rw [hfind]

/-- Companion witness for `direct_feature_join_semantics`: a two-row child
whose first link resolves to parent key 1 (value 9) and whose second link
dangles (NaN). -/
theorem direct_feature_join_semantics_witness :
    ∃ out, calcDirectFeatures [⟨"pid", "link"⟩] [⟨"pf", "val", Val.int 0⟩]
        ⟨["pid", "val"], [],
          [(Val.int 1, [("pid", some (Val.int 1)), ("val", some (Val.int 9))])]⟩
        ⟨["link"], [],
          [(Val.int 100, [("link", some (Val.int 1))]),
           (Val.int 101, [("link", some (Val.int 2))])]⟩ = .ok out ∧
      out.rows.map Prod.fst =
        ((⟨["link"], [],
          [(Val.int 100, [("link", some (Val.int 1))]),
           (Val.int 101, [("link", some (Val.int 2))])]⟩ : DFrame)).rows.map
          Prod.fst ∧
      ∀ f ∈ [(⟨"pf", "val", Val.int 0⟩ : DirectFeature)],
        out.colValues f.name =
          ((⟨["link"], [],
            [(Val.int 100, [("link", some (Val.int 1))]),
             (Val.int 101, [("link", some (Val.int 2))])]⟩ : DFrame)).rows.map
            fun r =>
              joinLookup
                ⟨["pid", "val"], [],
                  [(Val.int 1,
                    [("pid", some (Val.int 1)), ("val", some (Val.int 9))])]⟩
                "pid" f.baseName (getCell r.2 "link") :=
  (direct_feature_join_semantics ⟨"pid", "link"⟩ [⟨"pf", "val", Val.int 0⟩]
    ⟨["pid", "val"], [],
      [(Val.int 1, [("pid", some (Val.int 1)), ("val", some (Val.int 9))])]⟩
    ⟨["link"], [],
      [(Val.int 100, [("link", some (Val.int 1))]),
       (Val.int 101, [("link", some (Val.int 2))])]⟩
    (by decide) (by decide) (by decide) (by decide) (by decide)).2

end Featuretools
